import Mathlib

/-!
# TAPIR (Test API Rapid): batch dispatcher, worker and aggregator

A shallow embedding of `main.go`.

* Go `int` values (`TotalReqs`, `BatchSize`, `Duration`, loop offsets, counters,
  status codes) are embedded as the mathematical integers `Int`; the wrap-around of
  the machine type is not part of the embedding.  For `TotalReqs ≥ 0` and
  `BatchSize ≥ 1` every value the batch loop computes lies between `0` and
  `TotalReqs + BatchSize - 1` (`offsets_bounded`), so the embedding is exact as long
  as that number fits the machine type; every counter of the aggregator is bounded
  by the number of outcomes consumed.
* Go `string` and `[]byte` payloads are embedded as `String`; the conversions
  `string(b)` and `[]byte(s)` keep the byte sequence and are the identity here.
* A Go `error` is embedded as its description `err.Error()`.
* The outside world (the Go library, the file system, the timer, the capacity up to
  which the runtime creates a channel) is a parameter of the definitions, so
  theorems quantify over every behaviour of it.
* The goroutines are embedded by what they hand over: each worker contributes the
  list of `Result`s it sends, the aggregator folds over the sequence in which the
  channel delivers them, and the `select` on `stopChan` reads an observation
  `closed k` (is the channel closed at the `k`-th check).
-/

namespace Tapir

/-! ## Data model (`main.go` lines 17-32) -/

/-- Run configuration, `type Config struct`. -/
structure Config where
  Method : String
  Workers : Int
  TotalReqs : Int
  BatchSize : Int
  URL : String
  BodyFile : String
  Repeat : Bool
  Duration : Int
deriving DecidableEq, Repr

/-- One outcome, `type Result struct`. -/
structure Result where
  StatusCode : Int
  Response : String
  Count : Int
deriving DecidableEq, Repr

/-! ## Worker: `makeRequest` (lines 227-253) -/

/-- The part of `*http.Request` the worker touches. -/
structure Request where
  Method : String
  URL : String
  Body : String
  Header : List (String × String)
deriving DecidableEq, Repr

/-- The part of `*http.Response` the worker touches: the status code, and what
reading `resp.Body` to its end gives (the whole body, or a read error). -/
structure HttpResponse where
  StatusCode : Int
  Body : Except String String

/-- Behaviour of the Go library for one request: `strings.ToUpper`, and
`http.NewRequest` and `client.Do`, each of which returns a value or an error
description. -/
structure HttpEnv where
  ToUpper : String → String
  NewRequest : String → String → String → Except String Request
  Do : Request → Except String HttpResponse

/-- The fallible steps of `makeRequest`, in program order. -/
inductive Call where
  | NewRequest
  | Do
  | ReadAll
deriving DecidableEq, Repr

/-- What one execution of `makeRequest` did: the fallible steps it attempted and
the values it sent on `resultChan`, both in program order. -/
structure Effects where
  calls : List Call
  sent : List Result
deriving DecidableEq, Repr

/-- Embedding of `req.Header.Set(key, value)`: replaces the values stored under `key`. -/
def headerSet (h : List (String × String)) (key value : String) : List (String × String) :=
  h.filter (fun kv => kv.1 != key) ++ [(key, value)]

/-- Embedding of `makeRequest` (lines 227-253).  `reqID` is received and not used,
as in the source. -/
def makeRequest (env : HttpEnv) (config : Config) (body : String) (_reqID : Int) : Effects :=
  match env.NewRequest (env.ToUpper config.Method) config.URL body with
  | .error err =>
      { calls := [Call.NewRequest], sent := [{ StatusCode := 500, Response := err, Count := 0 }] }
  | .ok req0 =>
      let req : Request :=
        { req0 with Header := headerSet req0.Header "Content-Type" "application/json" }
      match env.Do req with
      | .error err =>
          { calls := [Call.NewRequest, Call.Do],
            sent := [{ StatusCode := 500, Response := err, Count := 0 }] }
      | .ok resp =>
          match resp.Body with
          | .error err =>
              { calls := [Call.NewRequest, Call.Do, Call.ReadAll],
                sent := [{ StatusCode := 500, Response := err, Count := 0 }] }
          | .ok respBody =>
              { calls := [Call.NewRequest, Call.Do, Call.ReadAll],
                sent := [{ StatusCode := resp.StatusCode, Response := respBody, Count := 0 }] }

/-! ## Aggregator goroutine (lines 82-85 and 101-114) -/

/-- The `results` map, `map[int]*Result`, as an association list with one entry per key. -/
abbrev ResultMap := List (Int × Result)

/-- Embedding of the map read `results[k]` with its `exists` flag. -/
def ResultMap.get? (m : ResultMap) (k : Int) : Option Result :=
  match m with
  | [] => none
  | (k0, r) :: rest => if k0 = k then some r else ResultMap.get? rest k

/-- Embedding of the map write `results[k] = r` for a key that is not in the map. -/
def ResultMap.insertNew (m : ResultMap) (k : Int) (r : Result) : ResultMap :=
  m ++ [(k, r)]

/-- Embedding of `results[k].Count++`, an update through the stored pointer. -/
def ResultMap.incrCount (m : ResultMap) (k : Int) : ResultMap :=
  m.map (fun kv => (kv.1, if kv.1 = k then { kv.2 with Count := kv.2.Count + 1 } else kv.2))

/-- The keys of the map. -/
def ResultMap.keys (m : ResultMap) : List Int :=
  m.map Prod.fst

/-- The sum of `Count` over all entries of the map. -/
def ResultMap.countSum (m : ResultMap) : Int :=
  (m.map (fun kv => kv.2.Count)).sum

/-- Embedding of `sort.Ints`: the ascending rearrangement of the slice. -/
def sortInts (l : List Int) : List Int :=
  l.insertionSort (fun a b => a ≤ b)

/-- The variables the aggregator goroutine owns: `results`, `statusOrder`, `processedCount`. -/
structure AggState where
  results : ResultMap
  statusOrder : List Int
  processedCount : Int
deriving DecidableEq, Repr

/-- The state before the first outcome (lines 82-85). -/
def AggState.empty : AggState :=
  { results := [], statusOrder := [], processedCount := 0 }

/-- One iteration of `for result := range resultChan` (lines 103-114).  The progress
line printed under `select` (lines 116-143) reads the state and does not change it. -/
def consume (s : AggState) (result : Result) : AggState :=
  let s1 : AggState :=
    if (s.results.get? result.StatusCode).isNone then
      { s with
        results := s.results.insertNew result.StatusCode
          { StatusCode := result.StatusCode, Response := result.Response, Count := 0 }
        statusOrder := sortInts (s.statusOrder ++ [result.StatusCode]) }
    else s
  { s1 with
    results := s1.results.incrCount result.StatusCode
    processedCount := s1.processedCount + 1 }

/-- The aggregator loop over the sequence of outcomes the channel delivers. -/
def aggregate (outs : List Result) : AggState :=
  outs.foldl consume AggState.empty

/-- The facts about the aggregator state that every iteration keeps. -/
structure AggInv (s : AggState) : Prop where
  keysNodup : s.results.keys.Nodup
  sortedLt : s.statusOrder.Sorted (fun a b => a < b)
  memIff : ∀ c, c ∈ s.statusOrder ↔ c ∈ s.results.keys
  sumEq : s.results.countSum = s.processedCount

/-! ## Batch dispatcher (lines 93-99 and 169-212) -/

/-- Why the dispatch loop was left. -/
inductive ExitReason where
  | stopSignal
  | passesDone
deriving DecidableEq, Repr

/-- What the dispatcher did, in order: it started a batch at an offset, with a size
and the request ids of the workers it launched; or the inner loop ran to its end. -/
inductive Event where
  | batch (offset : Int) (size : Int) (reqIDs : List Int)
  | passEnd
deriving DecidableEq, Repr

/-- Dispatcher state at the head of the inner loop (line 178): the offset `i`, how
many times `stopChan` was checked, what happened so far, and whether the labelled
loop was left. -/
structure DState where
  i : Int
  checks : Nat
  events : List Event
  exit : Option ExitReason
deriving DecidableEq, Repr

/-- Embedding of lines 183-186: the size of the batch that starts at offset `i`. -/
def batchSizeAt (config : Config) (i : Int) : Int :=
  if i + config.BatchSize > config.TotalReqs then config.TotalReqs - i else config.BatchSize

/-- Embedding of lines 190-202: the request ids `i + j` for `j = 0, 1, ..` while
`j < batchSize`, one worker launched for each. -/
def launch (i batchSize : Int) : List Int :=
  (List.range batchSize.toNat).map (fun (j : Nat) => i + (j : Int))

/-- Embedding of lines 93-99 and 169-174: `stopChan` is closed only by the goroutine
that waits for the timer, and that goroutine exists only when `Repeat` is set and
`Duration > 0`.  `timerDone k` says whether that goroutine would have closed the
channel by the `k`-th check. -/
def stopChanClosed (config : Config) (timerDone : Nat → Bool) (k : Nat) : Bool :=
  config.Repeat && decide (config.Duration > 0) && timerDone k

/-- Entry of `batchLoop` (lines 176-178). -/
def DState.init : DState :=
  { i := 0, checks := 0, events := [], exit := none }

/-- One step of `batchLoop` from the head of the inner loop (lines 178-211):
either one iteration of the inner loop, or the end of a pass. -/
def batchLoopStep (config : Config) (closed : Nat → Bool) (s : DState) : DState :=
  match s.exit with
  | some _ => s
  | none =>
    if s.i < config.TotalReqs then
      if closed s.checks then
        { s with checks := s.checks + 1, exit := some ExitReason.stopSignal }
      else
        let batchSize := batchSizeAt config s.i
        { i := s.i + config.BatchSize
          checks := s.checks + 1
          events := s.events ++ [Event.batch s.i batchSize (launch s.i batchSize)]
          exit := none }
    else if !config.Repeat || config.Duration == 0 then
      { s with events := s.events ++ [Event.passEnd], exit := some ExitReason.passesDone }
    else
      { s with i := 0, events := s.events ++ [Event.passEnd] }

/-- Runs `fuel` steps of `batchLoop`. -/
def batchLoop (config : Config) (closed : Nat → Bool) : Nat → DState → DState
  | 0, s => s
  | fuel + 1, s => batchLoop config closed fuel (batchLoopStep config closed s)

/-- The labelled loop of `main` (lines 176-212) after `fuel` steps, entered once
the lines before it have been passed. -/
def dispatch (config : Config) (timerDone : Nat → Bool) (fuel : Nat) : DState :=
  batchLoop config (stopChanClosed config timerDone) fuel DState.init

/-- Behaviour of the machine before the loop: `ioutil.ReadFile`, and the largest
capacity for which the runtime creates a channel of `Result`.  The runtime refuses
(`panic: makechan: size out of range`) a negative capacity and a buffer above its
allocation limit. -/
structure RunEnv where
  ReadFile : String → Except String String
  chanCapLimit : Int

/-- How a run of `main` stands after `fuel` steps of the loop: it returned at the
URL check (lines 67-70), it returned because the body file was not read (lines
74-80), it panicked when creating `resultChan` (line 88), or it reached the loop
with the body content and the loop is in state `s`. -/
inductive MainResult where
  | urlRequired
  | bodyReadError (err : String)
  | chanPanic
  | ran (bodyContent : String) (s : DState)
deriving DecidableEq, Repr

/-- Embedding of lines 72-80: the body is read only when a body file is named. -/
def readBody (env : RunEnv) (config : Config) : Except String String :=
  if config.BodyFile != "" then env.ReadFile config.BodyFile else .ok ""

/-- Embedding of `main` from the URL check to the loop (lines 67-212). -/
def main (env : RunEnv) (config : Config) (timerDone : Nat → Bool) (fuel : Nat) : MainResult :=
  if config.URL = "" then MainResult.urlRequired
  else
    match readBody env config with
    | .error err => MainResult.bodyReadError err
    | .ok bodyContent =>
      if config.BatchSize < 0 ∨ env.chanCapLimit < config.BatchSize then MainResult.chanPanic
      else MainResult.ran bodyContent (dispatch config timerDone fuel)

/-- The events of a run: those of the loop if the run reached it, none otherwise. -/
def MainResult.events : MainResult → List Event
  | MainResult.ran _ s => s.events
  | _ => []

/-- The sizes of the batches started, in order. -/
def batchSizes : List Event → List Int
  | [] => []
  | Event.batch _ size _ :: rest => size :: batchSizes rest
  | Event.passEnd :: rest => batchSizes rest

/-- The request ids of all workers launched, in launch order. -/
def launchedIDs : List Event → List Int
  | [] => []
  | Event.batch _ _ ids :: rest => ids ++ launchedIDs rest
  | Event.passEnd :: rest => launchedIDs rest

/-- The number of passes that ran to their end. -/
def passCount : List Event → Nat
  | [] => 0
  | Event.batch _ _ _ :: rest => passCount rest
  | Event.passEnd :: rest => passCount rest + 1

/-- The number of batches the inner loop runs for a budget `n` and batch size `b`:
the ceiling of `n / b`. -/
def ceilDiv (n b : Int) : Nat :=
  ((n + b - 1) / b).toNat

/-- The outcomes all launched workers send, in launch order; `envOf id` is how the
HTTP library behaves for the worker with request id `id`. -/
def workerOutcomes (envOf : Int → HttpEnv) (config : Config) (body : String)
    (ids : List Int) : List Result :=
  ids.flatMap (fun id => (makeRequest (envOf id) config body id).sent)

/-- The batch event the inner loop produces at offset `i`. -/
def batchEvent (config : Config) (i : Int) : Event :=
  Event.batch i (batchSizeAt config i) (launch i (batchSizeAt config i))

/-- The events of the first `m` iterations of a pass that starts at offset `0`. -/
def passEvents (config : Config) (m : Nat) : List Event :=
  (List.range m).map (fun (k : Nat) => batchEvent config ((k : Int) * config.BatchSize))

/-! ## Final export (lines 216-222) and `saveResponseToLog` (lines 34-49) -/

/-- Behaviour of the file system and clock for one call of `saveResponseToLog`:
the error of `os.MkdirAll` if any, the clock in milliseconds, the error of
`ioutil.WriteFile` if any. -/
structure FsEnv where
  MkdirAll : Option String
  UnixMilli : Int
  WriteFile : String → String → Option String

/-- What one call of `saveResponseToLog` did: the returned string and the writes
`(path, data)` it asked for. -/
structure LogEffects where
  returned : String
  writes : List (String × String)
deriving DecidableEq, Repr

/-- Embedding of `saveResponseToLog` (lines 34-49). -/
def saveResponseToLog (fs : FsEnv) (statusCode : Int) (response : String) : LogEffects :=
  match fs.MkdirAll with
  | some err => { returned := "Error creating logs directory: " ++ err, writes := [] }
  | none =>
    let timestamp := fs.UnixMilli
    let filename := "Error" ++ toString statusCode ++ "_" ++ toString timestamp ++ ".txt"
    let filepath := "logs/" ++ filename
    match fs.WriteFile filepath response with
    | some err =>
        { returned := "Error writing to log file: " ++ err, writes := [(filepath, response)] }
    | none => { returned := filename, writes := [(filepath, response)] }

/-- Embedding of the loop at lines 217-222 over an iteration order `iter` of the map:
the arguments of each call of `saveResponseToLog`. -/
def exportCalls (iter : List (Int × Result)) : List (Int × String) :=
  (iter.filter (fun kv => kv.1 != 200)).map (fun kv => (kv.1, kv.2.Response))

/-! ## Example inputs -/

/-- A configuration with budget `n`, batch size `b`, repeat flag `r` and duration `d`. -/
def exampleConfig (n b : Int) (r : Bool) (d : Int) : Config :=
  { Method := "get", Workers := 100, TotalReqs := n, BatchSize := b,
    URL := "http://localhost:8080/ping", BodyFile := "", Repeat := r, Duration := d }

/-- A machine on which no body file can be read and channels of up to `2 ^ 43`
elements are created. -/
def exampleEnv : RunEnv :=
  { ReadFile := fun _ => .error "open: no such file or directory", chanCapLimit := 2 ^ 43 }

/-- An endpoint that answers every request with status 200 and body `pong`. -/
def stub200 : HttpEnv :=
  { ToUpper := String.toUpper
    NewRequest := fun m u b => .ok { Method := m, URL := u, Body := b, Header := [] }
    Do := fun _ => .ok { StatusCode := 200, Body := .ok "pong" } }

/-- An endpoint that cannot be reached: `client.Do` fails. -/
def stubUnreachable : HttpEnv :=
  { ToUpper := String.toUpper
    NewRequest := fun m u b => .ok { Method := m, URL := u, Body := b, Header := [] }
    Do := fun _ => .error "dial tcp: connection refused" }

/-! ## Lemmas on the aggregator -/

theorem aggregate_snoc (outs : List Result) (o : Result) :
    aggregate (outs ++ [o]) = consume (aggregate outs) o := by
  simp [aggregate, List.foldl_append]

theorem get?_insertNew (m : ResultMap) (k c : Int) (r : Result) :
    (m.insertNew k r).get? c =
      match m.get? c with
      | some x => some x
      | none => if k = c then some r else none := by
  induction m with
  | nil => simp [ResultMap.insertNew, ResultMap.get?]
  | cons kv rest ih =>
    obtain ⟨k0, r0⟩ := kv
    by_cases h : k0 = c
    · simp [ResultMap.insertNew, ResultMap.get?, h]
    · simpa [ResultMap.insertNew, ResultMap.get?, h] using ih

theorem get?_incrCount (m : ResultMap) (k c : Int) :
    (m.incrCount k).get? c =
      (m.get? c).map (fun r => if k = c then { r with Count := r.Count + 1 } else r) := by
  induction m with
  | nil => simp [ResultMap.incrCount, ResultMap.get?]
  | cons kv rest ih =>
    obtain ⟨k0, r0⟩ := kv
    have ih2 : ResultMap.get? (ResultMap.incrCount rest k) c =
        (ResultMap.get? rest c).map
          (fun r => if k = c then { r with Count := r.Count + 1 } else r) := ih
    have hcons : ResultMap.incrCount ((k0, r0) :: rest) k =
        (k0, if k0 = k then { r0 with Count := r0.Count + 1 } else r0) ::
          ResultMap.incrCount rest k := rfl
    rw [hcons]
    by_cases h : k0 = c
    · by_cases hk : k0 = k
      · subst hk; subst h
        simp [ResultMap.get?]
      · have hk2 : ¬ k = c := fun e => hk (by rw [h, e])
        simp [ResultMap.get?, h, hk2]
        intro e; exact absurd e.symm hk2
    · simp [ResultMap.get?, h, ih2]

theorem get?_isSome_iff_mem_keys (m : ResultMap) (c : Int) :
    (m.get? c).isSome ↔ c ∈ m.keys := by
  induction m with
  | nil => simp [ResultMap.get?, ResultMap.keys]
  | cons kv rest ih =>
    obtain ⟨k0, r0⟩ := kv
    by_cases h : k0 = c
    · simp [ResultMap.get?, ResultMap.keys, h]
    · have h2 : ¬ c = k0 := fun e => h e.symm
      have ih2 : (ResultMap.get? rest c).isSome ↔ c ∈ List.map Prod.fst rest := ih
      simp [ResultMap.get?, ResultMap.keys, h, h2, ih2]

theorem keys_incrCount (m : ResultMap) (k : Int) : (m.incrCount k).keys = m.keys := by
  simp [ResultMap.incrCount, ResultMap.keys, Function.comp_def]

theorem keys_insertNew (m : ResultMap) (k : Int) (r : Result) :
    (m.insertNew k r).keys = m.keys ++ [k] := by
  simp [ResultMap.insertNew, ResultMap.keys]

theorem countSum_insertNew (m : ResultMap) (k : Int) (r : Result) :
    (m.insertNew k r).countSum = m.countSum + r.Count := by
  simp [ResultMap.insertNew, ResultMap.countSum]

theorem countSum_incrCount (m : ResultMap) (k : Int) :
    (m.incrCount k).countSum = m.countSum + (m.keys.count k : Int) := by
  induction m with
  | nil => simp [ResultMap.incrCount, ResultMap.countSum, ResultMap.keys]
  | cons kv rest ih =>
    obtain ⟨k0, r0⟩ := kv
    have hcons : ResultMap.incrCount ((k0, r0) :: rest) k =
        (k0, if k0 = k then { r0 with Count := r0.Count + 1 } else r0) ::
          ResultMap.incrCount rest k := rfl
    have hsum : ∀ (kv : Int × Result) (l : ResultMap),
        ResultMap.countSum (kv :: l) = kv.2.Count + ResultMap.countSum l := by
      intro kv l; simp [ResultMap.countSum]
    have hkeys : ResultMap.keys ((k0, r0) :: rest) = k0 :: ResultMap.keys rest := rfl
    rw [hcons, hsum, hsum, ih, hkeys]
    by_cases hk : k0 = k
    · subst hk
      simp only [if_true, List.count_cons_self]
      push_cast
      ring
    · have hk2 : (k0 == k) = false := by simpa using hk
      simp only [hk, if_false, List.count_cons, hk2]
      push_cast
      ring

theorem get?_consume (s : AggState) (o : Result) (c : Int) :
    (consume s o).results.get? c =
      match s.results.get? c with
      | some r => some (if o.StatusCode = c then { r with Count := r.Count + 1 } else r)
      | none =>
        if o.StatusCode = c then
          some { StatusCode := o.StatusCode, Response := o.Response, Count := 1 }
        else none := by
  unfold consume
  by_cases hnew : (s.results.get? o.StatusCode).isNone = true
  · have hnone : s.results.get? o.StatusCode = none := by simpa using hnew
    simp only [hnew, if_true, get?_incrCount, get?_insertNew]
    cases hc : s.results.get? c with
    | none =>
      by_cases e : o.StatusCode = c
      · simp [e]
      · simp [e]
    | some r =>
      have e : ¬ o.StatusCode = c := by
        intro e; rw [e] at hnone; rw [hnone] at hc; cases hc
      simp [e]
  · have hsome : (s.results.get? o.StatusCode).isSome = true := by
      cases h : s.results.get? o.StatusCode with
      | none => simp [h] at hnew
      | some r => rfl
    simp only [hnew, get?_incrCount]
    cases hc : s.results.get? c with
    | none =>
      have e : ¬ o.StatusCode = c := by
        intro e; rw [e] at hsome; rw [hc] at hsome; cases hsome
      simp [e, hc]
    | some r => simp [hc]

theorem aggInv_empty : AggInv AggState.empty := by
  constructor
  · simp [AggState.empty, ResultMap.keys]
  · simp [AggState.empty]
  · intro c; simp [AggState.empty, ResultMap.keys]
  · simp [AggState.empty, ResultMap.countSum]

theorem aggInv_consume (s : AggState) (o : Result) (h : AggInv s) : AggInv (consume s o) := by
  obtain ⟨hnd, hsorted, hmem, hsum⟩ := h
  unfold consume
  by_cases hnew : (s.results.get? o.StatusCode).isNone = true
  · have hnotin : o.StatusCode ∉ s.results.keys := by
      intro hin
      have := (get?_isSome_iff_mem_keys s.results o.StatusCode).2 hin
      cases hg : s.results.get? o.StatusCode with
      | none => rw [hg] at this; cases this
      | some r => rw [hg] at hnew; cases hnew
    have hnotin2 : o.StatusCode ∉ s.statusOrder := fun hin => hnotin ((hmem _).1 hin)
    simp only [hnew, if_true]
    constructor
    · simp only [keys_incrCount, keys_insertNew]
      exact List.Nodup.append hnd (List.nodup_singleton _) (by simpa using hnotin)
    · have hperm : List.Perm (sortInts (s.statusOrder ++ [o.StatusCode]))
          (s.statusOrder ++ [o.StatusCode]) :=
        List.perm_insertionSort _ _
      have hnd2 : (s.statusOrder ++ [o.StatusCode]).Nodup :=
        List.Nodup.append hsorted.nodup (List.nodup_singleton _) (by simpa using hnotin2)
      have hle : (sortInts (s.statusOrder ++ [o.StatusCode])).Sorted (fun a b => a ≤ b) :=
        List.sorted_insertionSort _ _
      exact hle.lt_of_le (hperm.nodup_iff.2 hnd2)
    · intro c
      simp only [keys_incrCount, keys_insertNew, sortInts, List.mem_insertionSort,
        List.mem_append, hmem c]
    · simp only [countSum_incrCount, countSum_insertNew, keys_insertNew]
      have hc : (s.results.keys ++ [o.StatusCode]).count o.StatusCode = 1 := by
        rw [List.count_append, List.count_eq_zero_of_not_mem hnotin]
        simp
      rw [hc, hsum]
      simp
  · have hin : o.StatusCode ∈ s.results.keys := by
      apply (get?_isSome_iff_mem_keys s.results o.StatusCode).1
      cases hg : s.results.get? o.StatusCode with
      | none => rw [hg] at hnew; simp at hnew
      | some r => rfl
    simp only [hnew, Bool.false_eq_true, if_false]
    constructor
    · simpa only [keys_incrCount] using hnd
    · exact hsorted
    · intro c
      simp only [keys_incrCount, hmem c]
    · simp only [countSum_incrCount]
      rw [List.count_eq_one_of_mem hnd hin, hsum]
      simp

theorem aggInv_aggregate (outs : List Result) : AggInv (aggregate outs) := by
  induction outs using List.reverseRecOn with
  | nil => exact aggInv_empty
  | append_singleton l o ih =>
    rw [aggregate_snoc]
    exact aggInv_consume _ o ih

theorem processedCount_consume (s : AggState) (o : Result) :
    (consume s o).processedCount = s.processedCount + 1 := by
  unfold consume
  by_cases hnew : (s.results.get? o.StatusCode).isNone = true <;> simp [hnew]

theorem processedCount_aggregate (outs : List Result) :
    (aggregate outs).processedCount = (outs.length : Int) := by
  induction outs using List.reverseRecOn with
  | nil => simp [aggregate, AggState.empty]
  | append_singleton l o ih =>
    rw [aggregate_snoc, processedCount_consume, ih]
    simp

/-- Full description of the map after the outcomes `outs`: the entry of status `c`
holds the payload of the first outcome with that status and the number of outcomes
with that status. -/
theorem get?_aggregate (outs : List Result) (c : Int) :
    (aggregate outs).results.get? c =
      (outs.find? (fun o => decide (o.StatusCode = c))).map (fun o =>
        ({ StatusCode := c, Response := o.Response,
           Count := ((outs.countP (fun o => decide (o.StatusCode = c)) : Nat) : Int) } : Result)) := by
  induction outs using List.reverseRecOn with
  | nil => simp [aggregate, AggState.empty, ResultMap.get?]
  | append_singleton l o ih =>
    rw [aggregate_snoc, get?_consume, ih]
    cases hf : l.find? (fun o => decide (o.StatusCode = c)) with
    | none =>
      have hz : l.countP (fun o => decide (o.StatusCode = c)) = 0 := by
        rw [List.countP_eq_zero]
        intro a ha
        exact (List.find?_eq_none.1 hf) a ha
      by_cases e : o.StatusCode = c
      · simp [hf, e, hz]
      · simp [hf, e, hz]
    | some r =>
      by_cases e : o.StatusCode = c
      · simp [hf, e]
      · simp [hf, e]

theorem count_aggregate (outs : List Result) (c : Int) :
    ((aggregate outs).results.get? c).map (fun r => r.Count) =
      if outs.countP (fun o => decide (o.StatusCode = c)) = 0 then none
      else some ((outs.countP (fun o => decide (o.StatusCode = c)) : Nat) : Int) := by
  rw [get?_aggregate]
  cases hf : outs.find? (fun o => decide (o.StatusCode = c)) with
  | none =>
    have hz : outs.countP (fun o => decide (o.StatusCode = c)) = 0 := by
      rw [List.countP_eq_zero]
      intro a ha
      exact (List.find?_eq_none.1 hf) a ha
    simp [hz]
  | some r =>
    have hnz : outs.countP (fun o => decide (o.StatusCode = c)) ≠ 0 := by
      intro hz
      rw [List.countP_eq_zero] at hz
      have hmem := List.mem_of_find?_eq_some hf
      have hp := List.find?_some hf
      exact hz r hmem hp
    simp [hnz]

theorem mem_keys_aggregate (outs : List Result) (c : Int) :
    c ∈ (aggregate outs).results.keys ↔ c ∈ outs.map (fun o => o.StatusCode) := by
  rw [← get?_isSome_iff_mem_keys, get?_aggregate]
  simp

theorem mem_iff_get? (m : ResultMap) (hnd : m.keys.Nodup) (c : Int) (r : Result) :
    (c, r) ∈ m ↔ m.get? c = some r := by
  induction m with
  | nil => simp [ResultMap.get?]
  | cons kv rest ih =>
    obtain ⟨k0, r0⟩ := kv
    have hnd2 : (k0 :: ResultMap.keys rest).Nodup := hnd
    have hk0 : k0 ∉ ResultMap.keys rest := (List.nodup_cons.1 hnd2).1
    have ih2 := ih (List.nodup_cons.1 hnd2).2
    by_cases h : k0 = c
    · subst h
      have hno : ¬ (k0, r) ∈ rest := by
        intro hin
        exact hk0 (List.mem_map.2 ⟨(k0, r), hin, rfl⟩)
      simp only [List.mem_cons, Prod.mk.injEq, ResultMap.get?, if_true, Option.some.injEq,
        hno, or_false, true_and]
      exact eq_comm
    · have h2 : ¬ c = k0 := fun e => h e.symm
      simp only [List.mem_cons, Prod.mk.injEq, h2, false_and, false_or, ResultMap.get?, h,
        if_false]
      exact ih2

/-- C4 (count conservation): after every prefix of the outcome sequence, that is
after each single outcome the aggregator consumes from the empty state, the
prefix states are linked by one loop iteration, `processedCount` equals the sum
of `Count` over the entries of the results map, and it equals the number of
outcomes consumed so far. -/
theorem C4_count_conservation (outs : List Result) (n : Nat) :
    (∀ h : n < outs.length,
      aggregate (outs.take (n + 1)) = consume (aggregate (outs.take n)) (outs.get ⟨n, h⟩)) ∧
    (aggregate (outs.take n)).processedCount = (aggregate (outs.take n)).results.countSum ∧
    (aggregate (outs.take n)).processedCount = ((min n outs.length : Nat) : Int) := by
  refine ⟨?_, ?_, ?_⟩
  · intro h
    rw [← aggregate_snoc]
    congr 1
    rw [List.take_succ]
    simp [List.getElem?_eq_getElem h]
  · exact (aggInv_aggregate _).sumEq.symm
  · rw [processedCount_aggregate, List.length_take]

/-- C5 (status-list invariant): after every prefix of the outcome sequence consumed
from the empty state, `statusOrder` is ascending, has no duplicate, and a status
code is a key of the results map exactly when it occurs in `statusOrder`. -/
theorem C5_status_list_invariant (outs : List Result) (n : Nat) :
    (aggregate (outs.take n)).statusOrder.Sorted (fun a b => a ≤ b) ∧
    (aggregate (outs.take n)).statusOrder.Nodup ∧
    (∀ c : Int, c ∈ (aggregate (outs.take n)).results.keys ↔
      c ∈ (aggregate (outs.take n)).statusOrder) ∧
    (∀ c : Int, ((aggregate (outs.take n)).results.get? c).isSome = true ↔
      c ∈ (aggregate (outs.take n)).statusOrder) := by
  have hinv := aggInv_aggregate (outs.take n)
  refine ⟨?_, hinv.sortedLt.nodup, fun c => (hinv.memIff c).symm, fun c => ?_⟩
  · exact hinv.sortedLt.imp (fun h => le_of_lt h)
  · rw [get?_isSome_iff_mem_keys]
    exact (hinv.memIff c).symm

/-- C8 (arrival-order independence): two outcome sequences that are permutations
of each other, consumed from the empty state, end with the same count for every
status code, the same `processedCount` and the same `statusOrder`. -/
theorem C8_order_independence (outs outs2 : List Result) (h : outs.Perm outs2) :
    (∀ c : Int, ((aggregate outs).results.get? c).map (fun r => r.Count) =
      ((aggregate outs2).results.get? c).map (fun r => r.Count)) ∧
    (aggregate outs).processedCount = (aggregate outs2).processedCount ∧
    (aggregate outs).statusOrder = (aggregate outs2).statusOrder := by
  refine ⟨fun c => ?_, ?_, ?_⟩
  · rw [count_aggregate, count_aggregate, h.countP_eq]
  · rw [processedCount_aggregate, processedCount_aggregate, h.length_eq]
  · have h1 := aggInv_aggregate outs
    have h2 := aggInv_aggregate outs2
    have hperm : (aggregate outs).statusOrder.Perm (aggregate outs2).statusOrder := by
      rw [List.perm_ext_iff_of_nodup h1.sortedLt.nodup h2.sortedLt.nodup]
      intro c
      rw [h1.memIff, h2.memIff, mem_keys_aggregate, mem_keys_aggregate]
      exact (h.map _).mem_iff
    exact List.eq_of_perm_of_sorted hperm h1.sortedLt h2.sortedLt

/-- Witness for C8 on two orders of three outcomes. -/
theorem C8_order_independence_witness :
    (∀ c : Int,
      ((aggregate [⟨500, "a", 0⟩, ⟨200, "b", 0⟩, ⟨500, "c", 0⟩]).results.get? c).map
          (fun r => r.Count) =
        ((aggregate [⟨200, "b", 0⟩, ⟨500, "c", 0⟩, ⟨500, "a", 0⟩]).results.get? c).map
          (fun r => r.Count)) ∧
    (aggregate [⟨500, "a", 0⟩, ⟨200, "b", 0⟩, ⟨500, "c", 0⟩]).processedCount =
      (aggregate [⟨200, "b", 0⟩, ⟨500, "c", 0⟩, ⟨500, "a", 0⟩]).processedCount ∧
    (aggregate [⟨500, "a", 0⟩, ⟨200, "b", 0⟩, ⟨500, "c", 0⟩]).statusOrder =
      (aggregate [⟨200, "b", 0⟩, ⟨500, "c", 0⟩, ⟨500, "a", 0⟩]).statusOrder :=
  C8_order_independence _ _ (by decide)

theorem response_aggregate (outs : List Result) (c : Int) :
    ((aggregate outs).results.get? c).map (fun r => r.Response) =
      (outs.find? (fun o => decide (o.StatusCode = c))).map (fun o => o.Response) := by
  rw [get?_aggregate]
  cases outs.find? (fun o => decide (o.StatusCode = c)) <;> simp

theorem writes_saveResponseToLog (fs : FsEnv) (c : Int) (payload : String) :
    (∀ w ∈ (saveResponseToLog fs c payload).writes, w.2 = payload) ∧
    (fs.MkdirAll = none →
      ∃ path, (saveResponseToLog fs c payload).writes = [(path, payload)]) := by
  unfold saveResponseToLog
  cases hm : fs.MkdirAll with
  | some err => simp
  | none =>
    cases hw : fs.WriteFile
        ("logs/" ++ ("Error" ++ toString c ++ "_" ++ toString fs.UnixMilli ++ ".txt")) payload with
    | some err => simp [hw]
    | none => simp [hw]

/-- C9 (log export fidelity): for a status code `s` that occurs among the outcomes,
the entry of `s` in the final map holds the payload of the first outcome with
status `s` in consumption order and, as `Count`, the number of outcomes with status
`s`; one more outcome with status `s` changes that entry only by adding one to
`Count`, an outcome with another status leaves it as it is, and no sequence of
later outcomes changes the payload; for every iteration order `iter` of the final
map the final export calls `saveResponseToLog` once for each status code of the map
that differs from 200 and for no other, with the stored first-seen payload as
argument; and every write `saveResponseToLog` asks for has exactly that argument as
its data. -/
theorem C9_log_export_fidelity (outs : List Result) (s : Int) (iter : List (Int × Result))
    (hs : s ∈ outs.map (fun o => o.StatusCode))
    (hiter : iter.Perm (aggregate outs).results) :
    (∃ o, outs.find? (fun o => decide (o.StatusCode = s)) = some o ∧
      (aggregate outs).results.get? s =
        some { StatusCode := s, Response := o.Response,
               Count := ((outs.countP (fun o => decide (o.StatusCode = s)) : Nat) : Int) } ∧
      ((aggregate outs).results.get? s).map (fun r => r.Response) = some o.Response) ∧
    (∀ o2 : Result, o2.StatusCode = s →
      (aggregate (outs ++ [o2])).results.get? s =
        ((aggregate outs).results.get? s).map
          (fun r => { StatusCode := r.StatusCode, Response := r.Response,
                      Count := r.Count + 1 })) ∧
    (∀ o2 : Result, o2.StatusCode ≠ s →
      (aggregate (outs ++ [o2])).results.get? s = (aggregate outs).results.get? s) ∧
    (∀ later : List Result,
      ((aggregate (outs ++ later)).results.get? s).map (fun r => r.Response) =
        ((aggregate outs).results.get? s).map (fun r => r.Response)) ∧
    (∀ (c : Int) (payload : String), (c, payload) ∈ exportCalls iter ↔
      (c ≠ 200 ∧
        ((aggregate outs).results.get? c).map (fun r => r.Response) = some payload)) ∧
    ((exportCalls iter).map Prod.fst).Nodup ∧
    (∀ (fs : FsEnv) (c : Int) (payload : String),
      (∀ w ∈ (saveResponseToLog fs c payload).writes, w.2 = payload) ∧
      (fs.MkdirAll = none →
        ∃ path, (saveResponseToLog fs c payload).writes = [(path, payload)])) := by
  have hinv := aggInv_aggregate outs
  have hfound : ∃ o, outs.find? (fun o => decide (o.StatusCode = s)) = some o := by
    obtain ⟨o, ho, hos⟩ := List.mem_map.1 hs
    cases hf : outs.find? (fun o => decide (o.StatusCode = s)) with
    | none =>
      have := (List.find?_eq_none.1 hf) o ho
      simp [hos] at this
    | some r => exact ⟨r, rfl⟩
  obtain ⟨o, ho⟩ := hfound
  have hentry : (aggregate outs).results.get? s =
      some { StatusCode := s, Response := o.Response,
             Count := ((outs.countP (fun o => decide (o.StatusCode = s)) : Nat) : Int) } := by
    rw [get?_aggregate, ho]; rfl
  refine ⟨⟨o, ho, hentry, ?_⟩, ?_, ?_, ?_, ?_, ?_, writes_saveResponseToLog⟩
  · rw [response_aggregate, ho]; rfl
  · intro o2 ho2
    rw [aggregate_snoc, get?_consume, hentry]
    simp [ho2]
  · intro o2 ho2
    rw [aggregate_snoc, get?_consume, hentry]
    simp [ho2]
  · intro later
    rw [response_aggregate, response_aggregate, List.find?_append, ho]
    rfl
  · intro c payload
    unfold exportCalls
    constructor
    · intro hin
      obtain ⟨kv, hkv, heq⟩ := List.mem_map.1 hin
      obtain ⟨hkvin, hne⟩ := List.mem_filter.1 hkv
      have hinres : (kv.1, kv.2) ∈ (aggregate outs).results := hiter.mem_iff.1 hkvin
      have hget := (mem_iff_get? _ hinv.keysNodup kv.1 kv.2).1 hinres
      have h1 : kv.1 = c := congrArg Prod.fst heq
      have h2 : kv.2.Response = payload := congrArg Prod.snd heq
      refine ⟨?_, ?_⟩
      · rw [← h1]; simpa using hne
      · rw [← h1, hget, ← h2]; rfl
    · rintro ⟨hne, hget⟩
      cases hg : (aggregate outs).results.get? c with
      | none => rw [hg] at hget; cases hget
      | some r =>
        rw [hg] at hget
        have hr : r.Response = payload := by simpa using hget
        have hinres : (c, r) ∈ (aggregate outs).results :=
          (mem_iff_get? _ hinv.keysNodup c r).2 hg
        refine List.mem_map.2 ⟨(c, r), List.mem_filter.2 ⟨hiter.mem_iff.2 hinres, ?_⟩, ?_⟩
        · simpa using hne
        · simp [hr]
  · unfold exportCalls
    rw [List.map_map]
    have hsub : List.Sublist
        ((iter.filter (fun kv => kv.1 != 200)).map Prod.fst) (iter.map Prod.fst) :=
      (List.filter_sublist iter).map Prod.fst
    have hnd : (iter.map Prod.fst).Nodup :=
      ((hiter.map Prod.fst).nodup_iff).2 hinv.keysNodup
    have := hnd.sublist hsub
    simpa [Function.comp_def] using this

/-- Witness for C9: three outcomes, two of them with status 500; the entry of 500
keeps the first payload with `Count = 2`, a third outcome with status 500 makes it
`Count = 3`, and the export has the one call for status 500. -/
theorem C9_log_export_fidelity_witness :
    (∃ o, ([⟨500, "boom", 0⟩, ⟨200, "ok", 0⟩, ⟨500, "later", 0⟩] : List Result).find?
        (fun o => decide (o.StatusCode = 500)) = some o ∧
      (aggregate [⟨500, "boom", 0⟩, ⟨200, "ok", 0⟩, ⟨500, "later", 0⟩]).results.get? 500 =
        some { StatusCode := 500, Response := o.Response,
               Count := ((([⟨500, "boom", 0⟩, ⟨200, "ok", 0⟩, ⟨500, "later", 0⟩] :
                  List Result).countP (fun o => decide (o.StatusCode = 500)) : Nat) : Int) } ∧
      ((aggregate [⟨500, "boom", 0⟩, ⟨200, "ok", 0⟩, ⟨500, "later", 0⟩]).results.get? 500).map
        (fun r => r.Response) = some o.Response) ∧
    (aggregate [⟨500, "boom", 0⟩, ⟨200, "ok", 0⟩, ⟨500, "later", 0⟩]).results.get? 500 =
      some ⟨500, "boom", 2⟩ ∧
    (aggregate ([⟨500, "boom", 0⟩, ⟨200, "ok", 0⟩, ⟨500, "later", 0⟩] ++
        [⟨500, "again", 0⟩])).results.get? 500 = some ⟨500, "boom", 3⟩ ∧
    exportCalls (aggregate [⟨500, "boom", 0⟩, ⟨200, "ok", 0⟩, ⟨500, "later", 0⟩]).results =
      [(500, "boom")] :=
  ⟨(C9_log_export_fidelity [⟨500, "boom", 0⟩, ⟨200, "ok", 0⟩, ⟨500, "later", 0⟩] 500
      (aggregate [⟨500, "boom", 0⟩, ⟨200, "ok", 0⟩, ⟨500, "later", 0⟩]).results
      (by decide) (List.Perm.refl _)).1, by decide, by decide, by decide⟩

/-! ## Lemmas on the dispatcher -/

theorem run_succ_last (config : Config) (closed : Nat → Bool) (fuel : Nat) (s : DState) :
    batchLoop config closed (fuel + 1) s =
      batchLoopStep config closed (batchLoop config closed fuel s) := by
  induction fuel generalizing s with
  | zero => rfl
  | succ n ih =>
    show batchLoop config closed (n + 1) (batchLoopStep config closed s) = _
    rw [ih]
    rfl

theorem run_add (config : Config) (closed : Nat → Bool) (a b : Nat) (s : DState) :
    batchLoop config closed (a + b) s =
      batchLoop config closed b (batchLoop config closed a s) := by
  induction a generalizing s with
  | zero => simp [batchLoop]
  | succ n ih =>
    rw [Nat.succ_add]
    show batchLoop config closed (n + b) (batchLoopStep config closed s) = _
    rw [ih]
    rfl

theorem step_exited (config : Config) (closed : Nat → Bool) (s : DState) (r : ExitReason)
    (h : s.exit = some r) : batchLoopStep config closed s = s := by
  unfold batchLoopStep
  rw [h]

theorem run_exited (config : Config) (closed : Nat → Bool) (fuel : Nat) (s : DState)
    (r : ExitReason) (h : s.exit = some r) : batchLoop config closed fuel s = s := by
  induction fuel with
  | zero => rfl
  | succ n ih =>
    show batchLoop config closed n (batchLoopStep config closed s) = s
    rw [step_exited config closed s r h, ih]

theorem step_batch (config : Config) (closed : Nat → Bool) (s : DState)
    (he : s.exit = none) (hlt : s.i < config.TotalReqs) (hc : closed s.checks = false) :
    batchLoopStep config closed s =
      { i := s.i + config.BatchSize, checks := s.checks + 1,
        events := s.events ++ [batchEvent config s.i], exit := none } := by
  unfold batchLoopStep
  rw [he]
  simp [hlt, hc, batchEvent]

theorem step_stop (config : Config) (closed : Nat → Bool) (s : DState)
    (he : s.exit = none) (hlt : s.i < config.TotalReqs) (hc : closed s.checks = true) :
    batchLoopStep config closed s =
      { s with checks := s.checks + 1, exit := some ExitReason.stopSignal } := by
  unfold batchLoopStep
  rw [he]
  simp [hlt, hc]

theorem step_passEnd_exit (config : Config) (closed : Nat → Bool) (s : DState)
    (he : s.exit = none) (hge : config.TotalReqs ≤ s.i)
    (hx : (!config.Repeat || config.Duration == 0) = true) :
    batchLoopStep config closed s =
      { s with events := s.events ++ [Event.passEnd], exit := some ExitReason.passesDone } := by
  unfold batchLoopStep
  rw [he]
  have : ¬ s.i < config.TotalReqs := by omega
  simp only [this, if_false, hx, if_true]

theorem step_passEnd_again (config : Config) (closed : Nat → Bool) (s : DState)
    (he : s.exit = none) (hge : config.TotalReqs ≤ s.i)
    (hx : (!config.Repeat || config.Duration == 0) = false) :
    batchLoopStep config closed s = { s with i := 0, events := s.events ++ [Event.passEnd] } := by
  unfold batchLoopStep
  rw [he]
  have : ¬ s.i < config.TotalReqs := by omega
  simp only [this, if_false, hx, Bool.false_eq_true]

/-- From a running state, `m` iterations of the inner loop in which the offset stays
below the budget and the stop channel is open start `m` batches. -/
theorem run_batches (config : Config) (closed : Nat → Bool) (s : DState) (m : Nat)
    (he : s.exit = none)
    (hlt : ∀ j : Nat, j < m → s.i + (j : Int) * config.BatchSize < config.TotalReqs)
    (hc : ∀ j : Nat, j < m → closed (s.checks + j) = false) :
    batchLoop config closed m s =
      { i := s.i + (m : Int) * config.BatchSize, checks := s.checks + m,
        events := s.events ++
          (List.range m).map
            (fun (j : Nat) => batchEvent config (s.i + (j : Int) * config.BatchSize)),
        exit := none } := by
  induction m with
  | zero =>
    cases s
    simp_all [batchLoop]
  | succ n ih =>
    rw [run_succ_last, ih (fun j hj => hlt j (by omega)) (fun j hj => hc j (by omega))]
    rw [step_batch _ _ _ rfl (hlt n (by omega)) (hc n (by omega))]
    simp only [List.range_succ, List.map_append, List.map_cons, List.map_nil,
      List.append_assoc, DState.mk.injEq, and_true, true_and]
    refine ⟨?_, ?_⟩
    · push_cast; ring
    · omega

theorem batchSizeAt_eq_min (config : Config) (i : Int) :
    batchSizeAt config i = min config.BatchSize (config.TotalReqs - i) := by
  unfold batchSizeAt
  by_cases h : i + config.BatchSize > config.TotalReqs
  · rw [if_pos h, min_eq_right (by omega)]
  · rw [if_neg h, min_eq_left (by omega)]

/-- Arithmetic of the ceiling: for `b ≥ 1` and `n ≥ 0` the number `q = ceilDiv n b`
is the least with `n ≤ q * b`. -/
theorem ceilDiv_spec (n b : Int) (hn : 0 ≤ n) (hb : 1 ≤ b) :
    n ≤ (ceilDiv n b : Int) * b ∧ (ceilDiv n b : Int) * b < n + b := by
  unfold ceilDiv
  have hq0 : 0 ≤ (n + b - 1) / b := Int.ediv_nonneg (by omega) (by omega)
  rw [Int.toNat_of_nonneg hq0]
  have h1 := Int.emod_add_ediv (n + b - 1) b
  have h2 := Int.emod_nonneg (n + b - 1) (by omega : b ≠ 0)
  have h3 := Int.emod_lt_of_pos (n + b - 1) (by omega : 0 < b)
  have h4 : (n + b - 1) / b * b = b * ((n + b - 1) / b) := mul_comm _ _
  constructor <;> omega

theorem ceilDiv_pos (n b : Int) (hn : 1 ≤ n) (hb : 1 ≤ b) : 1 ≤ ceilDiv n b := by
  have h := (ceilDiv_spec n b (by omega) hb).1
  by_contra hlt
  have hz : ceilDiv n b = 0 := by omega
  rw [hz] at h
  simp at h
  omega

theorem offset_lt_of_lt_ceilDiv (n b : Int) (hn : 0 ≤ n) (hb : 1 ≤ b) (j : Nat)
    (hj : j < ceilDiv n b) : (j : Int) * b < n := by
  have h := (ceilDiv_spec n b hn hb).2
  have hj2 : (j : Int) + 1 ≤ (ceilDiv n b : Int) := by exact_mod_cast hj
  have hmul : ((j : Int) + 1) * b ≤ (ceilDiv n b : Int) * b :=
    mul_le_mul_of_nonneg_right hj2 (by omega)
  have hexp : ((j : Int) + 1) * b = (j : Int) * b + b := by ring
  omega

theorem run_pass (config : Config) (closed : Nat → Bool)
    (hN : 0 ≤ config.TotalReqs) (hB : 1 ≤ config.BatchSize)
    (hc : ∀ k : Nat, k < ceilDiv config.TotalReqs config.BatchSize → closed k = false) :
    batchLoop config closed (ceilDiv config.TotalReqs config.BatchSize) DState.init =
      { i := (ceilDiv config.TotalReqs config.BatchSize : Int) * config.BatchSize,
        checks := ceilDiv config.TotalReqs config.BatchSize,
        events := passEvents config (ceilDiv config.TotalReqs config.BatchSize),
        exit := none } := by
  have h := run_batches config closed DState.init
    (ceilDiv config.TotalReqs config.BatchSize) rfl
    (fun j hj => by
      have := offset_lt_of_lt_ceilDiv _ _ hN hB j hj
      simpa [DState.init] using this)
    (fun j hj => by simpa [DState.init] using hc j hj)
  rw [h]
  simp [DState.init, passEvents]

theorem run_pass_upto (config : Config) (closed : Nat → Bool)
    (hN : 0 ≤ config.TotalReqs) (hB : 1 ≤ config.BatchSize)
    (hc : ∀ k : Nat, k < ceilDiv config.TotalReqs config.BatchSize → closed k = false)
    (m : Nat) (hm : m ≤ ceilDiv config.TotalReqs config.BatchSize) :
    batchLoop config closed m DState.init =
      { i := (m : Int) * config.BatchSize, checks := m,
        events := passEvents config m, exit := none } := by
  have h := run_batches config closed DState.init m rfl
    (fun j hj => by
      have := offset_lt_of_lt_ceilDiv _ _ hN hB j (by omega)
      simpa [DState.init] using this)
    (fun j hj => by simpa [DState.init] using hc j (by omega))
  rw [h]
  simp [DState.init, passEvents]

theorem batchSizes_append (l1 l2 : List Event) :
    batchSizes (l1 ++ l2) = batchSizes l1 ++ batchSizes l2 := by
  induction l1 with
  | nil => rfl
  | cons e rest ih => cases e <;> simp [batchSizes, ih]

theorem launchedIDs_append (l1 l2 : List Event) :
    launchedIDs (l1 ++ l2) = launchedIDs l1 ++ launchedIDs l2 := by
  induction l1 with
  | nil => rfl
  | cons e rest ih => cases e <;> simp [launchedIDs, ih]

theorem passCount_append (l1 l2 : List Event) :
    passCount (l1 ++ l2) = passCount l1 + passCount l2 := by
  induction l1 with
  | nil => simp [passCount]
  | cons e rest ih =>
    cases e
    · simp [passCount, ih]
    · simp [passCount, ih]; omega

theorem passEvents_succ (config : Config) (m : Nat) :
    passEvents config (m + 1) =
      passEvents config m ++ [batchEvent config ((m : Int) * config.BatchSize)] := by
  simp [passEvents, List.range_succ]

theorem passCount_passEvents (config : Config) (m : Nat) : passCount (passEvents config m) = 0 := by
  induction m with
  | zero => rfl
  | succ n ih => rw [passEvents_succ, passCount_append, ih]; rfl

theorem batchSizes_passEvents (config : Config) (m : Nat) :
    batchSizes (passEvents config m) =
      (List.range m).map (fun (k : Nat) =>
        min config.BatchSize (config.TotalReqs - (k : Int) * config.BatchSize)) := by
  induction m with
  | zero => rfl
  | succ n ih =>
    rw [passEvents_succ, batchSizes_append, ih, List.range_succ, List.map_append]
    simp [batchEvent, batchSizes, batchSizeAt_eq_min]

theorem range_cast_append (a b : Nat) :
    (List.range a).map (fun (j : Nat) => (j : Int)) ++
        (List.range b).map (fun (j : Nat) => (a : Int) + (j : Int)) =
      (List.range (a + b)).map (fun (j : Nat) => (j : Int)) := by
  rw [List.range_add, List.map_append, List.map_map]
  congr 1

/-- Sizes and request ids of the first `m` batches of a pass: the sizes sum to
`min (m * B) N` and the ids are `0, 1, ..` up to that number. -/
theorem passEvents_sum_ids (config : Config)
    (hN : 0 ≤ config.TotalReqs) (hB : 1 ≤ config.BatchSize) (m : Nat)
    (hm : m ≤ ceilDiv config.TotalReqs config.BatchSize) :
    (batchSizes (passEvents config m)).sum = min ((m : Int) * config.BatchSize) config.TotalReqs ∧
    launchedIDs (passEvents config m) =
      (List.range (min ((m : Int) * config.BatchSize) config.TotalReqs).toNat).map
        (fun (j : Nat) => (j : Int)) := by
  induction m with
  | zero => simp [passEvents, batchSizes, launchedIDs, hN]
  | succ n ih =>
    obtain ⟨ih1, ih2⟩ := ih (by omega)
    have hlt := offset_lt_of_lt_ceilDiv _ _ hN hB n (by omega)
    have hn0 : 0 ≤ (n : Int) * config.BatchSize :=
      mul_nonneg (by omega) (by omega)
    have hmin : min ((n : Int) * config.BatchSize) config.TotalReqs =
        (n : Int) * config.BatchSize := min_eq_left (by omega)
    have hexp : ((n + 1 : Nat) : Int) * config.BatchSize =
        (n : Int) * config.BatchSize + config.BatchSize := by push_cast; ring
    rw [hmin] at ih1 ih2
    rw [passEvents_succ, batchSizes_append, launchedIDs_append, List.sum_append, ih1, ih2, hexp]
    simp only [batchEvent, batchSizes, launchedIDs, List.sum_cons, List.sum_nil, add_zero,
      List.append_nil, batchSizeAt_eq_min, launch]
    generalize (n : Int) * config.BatchSize = x at *
    constructor
    · omega
    · have hx : x = ((x.toNat : Nat) : Int) := (Int.toNat_of_nonneg hn0).symm
      have hsum : (min (x + config.BatchSize) config.TotalReqs).toNat =
          x.toNat + (min config.BatchSize (config.TotalReqs - x)).toNat := by omega
      rw [hsum, ← range_cast_append]
      congr 1
      apply List.map_congr_left
      intro j _
      omega

theorem sent_length_makeRequest (env : HttpEnv) (config : Config) (body : String) (reqID : Int) :
    (makeRequest env config body reqID).sent.length = 1 := by
  unfold makeRequest
  cases env.NewRequest (env.ToUpper config.Method) config.URL body with
  | error err => rfl
  | ok req0 =>
    simp only
    cases env.Do { req0 with Header := headerSet req0.Header "Content-Type" "application/json" } with
    | error err => rfl
    | ok resp =>
      simp only
      cases resp.Body with
      | error err => rfl
      | ok respBody => rfl

/-- C3 (one outcome on every path): `makeRequest` sends exactly one `Result`
whatever its three fallible steps do.  If building the request fails, only that step
is attempted and the result is status 500 with that error; if `client.Do` fails, the
body is not read and the result is status 500 with that error; if reading the body
fails, the result is status 500 with that error; if all three succeed, the result
carries the status code of the response and the whole body. -/
theorem C3_makeRequest_one_result (env : HttpEnv) (config : Config) (body : String)
    (reqID : Int) :
    (makeRequest env config body reqID).sent.length = 1 ∧
    (∀ err, env.NewRequest (env.ToUpper config.Method) config.URL body = .error err →
      makeRequest env config body reqID =
        { calls := [Call.NewRequest],
          sent := [{ StatusCode := 500, Response := err, Count := 0 }] }) ∧
    (∀ req0 err, env.NewRequest (env.ToUpper config.Method) config.URL body = .ok req0 →
      env.Do { req0 with Header := headerSet req0.Header "Content-Type" "application/json" } =
        .error err →
      makeRequest env config body reqID =
        { calls := [Call.NewRequest, Call.Do],
          sent := [{ StatusCode := 500, Response := err, Count := 0 }] }) ∧
    (∀ req0 resp err, env.NewRequest (env.ToUpper config.Method) config.URL body = .ok req0 →
      env.Do { req0 with Header := headerSet req0.Header "Content-Type" "application/json" } =
        .ok resp →
      resp.Body = .error err →
      makeRequest env config body reqID =
        { calls := [Call.NewRequest, Call.Do, Call.ReadAll],
          sent := [{ StatusCode := 500, Response := err, Count := 0 }] }) ∧
    (∀ req0 resp respBody, env.NewRequest (env.ToUpper config.Method) config.URL body = .ok req0 →
      env.Do { req0 with Header := headerSet req0.Header "Content-Type" "application/json" } =
        .ok resp →
      resp.Body = .ok respBody →
      makeRequest env config body reqID =
        { calls := [Call.NewRequest, Call.Do, Call.ReadAll],
          sent := [{ StatusCode := resp.StatusCode, Response := respBody, Count := 0 }] }) := by
  refine ⟨sent_length_makeRequest env config body reqID, ?_, ?_, ?_, ?_⟩
  · intro err h1
    unfold makeRequest
    rw [h1]
  · intro req0 err h1 h2
    unfold makeRequest
    rw [h1]
    simp only
    rw [h2]
  · intro req0 resp err h1 h2 h3
    unfold makeRequest
    rw [h1]
    simp only
    rw [h2]
    simp only
    rw [h3]
  · intro req0 resp respBody h1 h2 h3
    unfold makeRequest
    rw [h1]
    simp only
    rw [h2]
    simp only
    rw [h3]

/-- Witness for C3: an unreachable endpoint gives one synthetic outcome with status
500 and the transport error, and the body is never read. -/
theorem C3_makeRequest_one_result_witness :
    makeRequest stubUnreachable (exampleConfig 10 3 false 0) "" 7 =
      { calls := [Call.NewRequest, Call.Do],
        sent := [{ StatusCode := 500, Response := "dial tcp: connection refused", Count := 0 }] } :=
  (C3_makeRequest_one_result stubUnreachable (exampleConfig 10 3 false 0) "" 7).2.2.1
    _ _ rfl rfl

theorem passEvents_eq_min (config : Config) (m : Nat) :
    passEvents config m =
      (List.range m).map (fun (k : Nat) =>
        Event.batch ((k : Int) * config.BatchSize)
          (min config.BatchSize (config.TotalReqs - (k : Int) * config.BatchSize))
          (launch ((k : Int) * config.BatchSize)
            (min config.BatchSize (config.TotalReqs - (k : Int) * config.BatchSize)))) := by
  simp [passEvents, batchEvent, batchSizeAt_eq_min]

theorem step_passEnd_events (config : Config) (closed : Nat → Bool) (s : DState)
    (he : s.exit = none) (hge : config.TotalReqs ≤ s.i) :
    (batchLoopStep config closed s).events = s.events ++ [Event.passEnd] := by
  cases hx : (!config.Repeat || config.Duration == 0) with
  | true => rw [step_passEnd_exit config closed s he hge hx]
  | false => rw [step_passEnd_again config closed s he hge hx]

/-- C1 (batch partitioning): for `N ≥ 1`, `B ≥ 1` and a stop channel that stays open,
the first `ceil(N/B)` steps of the dispatcher are batches, the `k`-th at offset
`k * B` with size `min B (N - k * B)`; before that number of steps the inner loop
condition `i < N` holds and after it the condition fails, so the next step ends the
pass.  Every batch but the last has size `B`, the last has size
`N - B * (ceil(N/B) - 1)`, and that size is between `1` and `B`. -/
theorem C1_pass_batches (config : Config) (timerDone : Nat → Bool)
    (hN : 1 ≤ config.TotalReqs) (hB : 1 ≤ config.BatchSize)
    (hstop : ∀ k, stopChanClosed config timerDone k = false) :
    (dispatch config timerDone (ceilDiv config.TotalReqs config.BatchSize)).events =
      (List.range (ceilDiv config.TotalReqs config.BatchSize)).map (fun (k : Nat) =>
        Event.batch ((k : Int) * config.BatchSize)
          (min config.BatchSize (config.TotalReqs - (k : Int) * config.BatchSize))
          (launch ((k : Int) * config.BatchSize)
            (min config.BatchSize (config.TotalReqs - (k : Int) * config.BatchSize)))) ∧
    (dispatch config timerDone (ceilDiv config.TotalReqs config.BatchSize)).exit = none ∧
    config.TotalReqs ≤ (dispatch config timerDone (ceilDiv config.TotalReqs config.BatchSize)).i ∧
    (∀ m : Nat, m < ceilDiv config.TotalReqs config.BatchSize →
      (dispatch config timerDone m).i < config.TotalReqs ∧
      (dispatch config timerDone m).exit = none) ∧
    (dispatch config timerDone (ceilDiv config.TotalReqs config.BatchSize + 1)).events =
      (dispatch config timerDone (ceilDiv config.TotalReqs config.BatchSize)).events ++
        [Event.passEnd] ∧
    (∀ k : Nat, k + 1 < ceilDiv config.TotalReqs config.BatchSize →
      min config.BatchSize (config.TotalReqs - (k : Int) * config.BatchSize) =
        config.BatchSize) ∧
    min config.BatchSize (config.TotalReqs -
        ((ceilDiv config.TotalReqs config.BatchSize : Int) - 1) * config.BatchSize) =
      config.TotalReqs -
        config.BatchSize * ((ceilDiv config.TotalReqs config.BatchSize : Int) - 1) ∧
    1 ≤ config.TotalReqs -
        config.BatchSize * ((ceilDiv config.TotalReqs config.BatchSize : Int) - 1) ∧
    config.TotalReqs -
        config.BatchSize * ((ceilDiv config.TotalReqs config.BatchSize : Int) - 1) ≤
      config.BatchSize := by
  have hN0 : 0 ≤ config.TotalReqs := by omega
  have hrun := run_pass config (stopChanClosed config timerDone) hN0 hB (fun k _ => hstop k)
  have hspec := ceilDiv_spec config.TotalReqs config.BatchSize hN0 hB
  have hpos := ceilDiv_pos config.TotalReqs config.BatchSize hN hB
  have hexp : ((ceilDiv config.TotalReqs config.BatchSize : Int) - 1) * config.BatchSize =
      (ceilDiv config.TotalReqs config.BatchSize : Int) * config.BatchSize -
        config.BatchSize := by ring
  have hexp2 : config.BatchSize * ((ceilDiv config.TotalReqs config.BatchSize : Int) - 1) =
      (ceilDiv config.TotalReqs config.BatchSize : Int) * config.BatchSize -
        config.BatchSize := by ring
  refine ⟨?_, ?_, ?_, ?_, ?_, ?_, ?_, ?_, ?_⟩
  · unfold dispatch; rw [hrun, ← passEvents_eq_min]
  · unfold dispatch; rw [hrun]
  · unfold dispatch; rw [hrun]; exact hspec.1
  · intro m hm
    unfold dispatch
    rw [run_pass_upto config _ hN0 hB (fun k _ => hstop k) m (by omega)]
    exact ⟨offset_lt_of_lt_ceilDiv _ _ hN0 hB m hm, rfl⟩
  · unfold dispatch
    rw [run_succ_last, hrun]
    exact step_passEnd_events _ _ _ rfl hspec.1
  · intro k hk
    have hlt := offset_lt_of_lt_ceilDiv _ _ hN0 hB (k + 1) hk
    have hexp3 : ((k + 1 : Nat) : Int) * config.BatchSize =
        (k : Int) * config.BatchSize + config.BatchSize := by push_cast; ring
    rw [hexp3] at hlt
    exact min_eq_left (by omega)
  · rw [hexp, hexp2]
    exact min_eq_right (by omega)
  · rw [hexp2]; omega
  · rw [hexp2]; omega

/-- Witness for C1: budget 10 and batch size 3 give four batches of sizes 3, 3, 3, 1. -/
theorem C1_pass_batches_witness :
    ceilDiv 10 3 = 4 ∧
    (dispatch (exampleConfig 10 3 false 0) (fun _ => false) 4).events =
      [Event.batch 0 3 [0, 1, 2], Event.batch 3 3 [3, 4, 5], Event.batch 6 3 [6, 7, 8],
        Event.batch 9 1 [9]] ∧
    (dispatch (exampleConfig 10 3 false 0) (fun _ => false)
        (ceilDiv (exampleConfig 10 3 false 0).TotalReqs
          (exampleConfig 10 3 false 0).BatchSize)).exit = none :=
  ⟨by decide, by decide,
    (C1_pass_batches (exampleConfig 10 3 false 0) (fun _ => false) (by decide) (by decide)
      (fun _ => rfl)).2.1⟩

theorem launchedIDs_replicate_empty (n : Nat) :
    launchedIDs (List.replicate n (Event.batch 0 0 [])) = [] := by
  induction n with
  | zero => rfl
  | succ n ih => simp [List.replicate_succ, launchedIDs, ih]

theorem passCount_replicate_batch (n : Nat) :
    passCount (List.replicate n (Event.batch 0 0 [])) = 0 := by
  induction n with
  | zero => rfl
  | succ n ih => simp [List.replicate_succ, passCount, ih]

/-- C10 (termination depends on the batch size): for `N ≥ 1` and a stop channel that
stays open, with `B ≥ 1` the inner loop condition holds before each of the first
`ceil(N/B)` iterations and fails after them, so the pass ends after exactly that
many iterations; with `B = 0` the state after any number of steps has offset `0`,
only batches of size `0` without any request, no completed pass, and the loop is
still running. -/
theorem C10_termination_by_batch_size (config : Config) (timerDone : Nat → Bool)
    (hN : 1 ≤ config.TotalReqs)
    (hstop : ∀ k, stopChanClosed config timerDone k = false) :
    (1 ≤ config.BatchSize →
      (∀ m : Nat, m < ceilDiv config.TotalReqs config.BatchSize →
        (dispatch config timerDone m).i < config.TotalReqs ∧
        (dispatch config timerDone m).checks = m ∧
        (dispatch config timerDone m).exit = none) ∧
      config.TotalReqs ≤
        (dispatch config timerDone (ceilDiv config.TotalReqs config.BatchSize)).i ∧
      (dispatch config timerDone (ceilDiv config.TotalReqs config.BatchSize)).checks =
        ceilDiv config.TotalReqs config.BatchSize ∧
      passCount
        (dispatch config timerDone (ceilDiv config.TotalReqs config.BatchSize)).events = 0 ∧
      passCount
        (dispatch config timerDone (ceilDiv config.TotalReqs config.BatchSize + 1)).events = 1) ∧
    (config.BatchSize = 0 →
      ∀ fuel : Nat,
        dispatch config timerDone fuel =
          { i := 0, checks := fuel, events := List.replicate fuel (Event.batch 0 0 []),
            exit := none } ∧
        (dispatch config timerDone fuel).i < config.TotalReqs ∧
        launchedIDs (dispatch config timerDone fuel).events = [] ∧
        passCount (dispatch config timerDone fuel).events = 0) := by
  have hN0 : 0 ≤ config.TotalReqs := by omega
  constructor
  · intro hB
    have hrun := run_pass config (stopChanClosed config timerDone) hN0 hB (fun k _ => hstop k)
    have hspec := ceilDiv_spec config.TotalReqs config.BatchSize hN0 hB
    refine ⟨?_, ?_, ?_, ?_, ?_⟩
    · intro m hm
      unfold dispatch
      rw [run_pass_upto config _ hN0 hB (fun k _ => hstop k) m (by omega)]
      exact ⟨offset_lt_of_lt_ceilDiv _ _ hN0 hB m hm, rfl, rfl⟩
    · unfold dispatch; rw [hrun]; exact hspec.1
    · unfold dispatch; rw [hrun]
    · unfold dispatch; rw [hrun]; exact passCount_passEvents _ _
    · unfold dispatch
      rw [run_succ_last, hrun, step_passEnd_events _ _ _ rfl hspec.1, passCount_append]
      simp [passCount, passCount_passEvents]
  · intro hB fuel
    have hrun := run_batches config (stopChanClosed config timerDone) DState.init fuel rfl
      (fun j _ => by simp [DState.init, hB]; omega) (fun j _ => hstop _)
    have hev : batchEvent config 0 = Event.batch 0 0 [] := by
      have hsz : batchSizeAt config 0 = 0 := by
        rw [batchSizeAt_eq_min, hB]; exact min_eq_left (by omega)
      simp [batchEvent, hsz, launch]
    have hstate : dispatch config timerDone fuel =
        { i := 0, checks := fuel, events := List.replicate fuel (Event.batch 0 0 []),
          exit := none } := by
      unfold dispatch
      rw [hrun]
      simp [DState.init, hB, hev]
    refine ⟨hstate, ?_, ?_, ?_⟩
    · rw [hstate]; show (0 : Int) < config.TotalReqs; omega
    · rw [hstate]; exact launchedIDs_replicate_empty fuel
    · rw [hstate]; exact passCount_replicate_batch fuel

/-- Witness for C10: budget 10 with batch size 3, and budget 10 with batch size 0. -/
theorem C10_termination_by_batch_size_witness :
    ((10 : Int) ≤ (dispatch (exampleConfig 10 3 false 0) (fun _ => false)
        (ceilDiv (exampleConfig 10 3 false 0).TotalReqs
          (exampleConfig 10 3 false 0).BatchSize)).i) ∧
    (∀ fuel : Nat,
      dispatch (exampleConfig 10 0 false 0) (fun _ => false) fuel =
        { i := 0, checks := fuel, events := List.replicate fuel (Event.batch 0 0 []),
          exit := none }) :=
  ⟨((C10_termination_by_batch_size (exampleConfig 10 3 false 0) (fun _ => false) (by decide)
      (fun _ => rfl)).1 (by decide)).2.1,
    fun fuel => ((C10_termination_by_batch_size (exampleConfig 10 0 false 0) (fun _ => false)
      (by decide) (fun _ => rfl)).2 rfl fuel).1⟩

/-- When the exit test of line 209 succeeds and the stop channel stays open, the
dispatcher runs one pass and leaves the loop; more fuel does not change the state. -/
theorem single_pass_state (config : Config) (closed : Nat → Bool)
    (hN : 0 ≤ config.TotalReqs) (hB : 1 ≤ config.BatchSize)
    (hc : ∀ k : Nat, closed k = false)
    (hx : (!config.Repeat || config.Duration == 0) = true)
    (fuel : Nat) (hfuel : ceilDiv config.TotalReqs config.BatchSize + 1 ≤ fuel) :
    batchLoop config closed fuel DState.init =
      { i := (ceilDiv config.TotalReqs config.BatchSize : Int) * config.BatchSize,
        checks := ceilDiv config.TotalReqs config.BatchSize,
        events := passEvents config (ceilDiv config.TotalReqs config.BatchSize) ++
          [Event.passEnd],
        exit := some ExitReason.passesDone } := by
  obtain ⟨d, hd⟩ := Nat.exists_eq_add_of_le hfuel
  have hspec := ceilDiv_spec config.TotalReqs config.BatchSize hN hB
  rw [hd, run_add, run_succ_last, run_pass config closed hN hB (fun k _ => hc k),
    step_passEnd_exit _ _ _ rfl hspec.1 hx]
  exact run_exited _ _ _ _ _ rfl

theorem stopChanClosed_no_repeat (config : Config) (timerDone : Nat → Bool)
    (hR : config.Repeat = false) (k : Nat) : stopChanClosed config timerDone k = false := by
  simp [stopChanClosed, hR]

theorem length_workerOutcomes (envOf : Int → HttpEnv) (config : Config) (body : String)
    (ids : List Int) : (workerOutcomes envOf config body ids).length = ids.length := by
  induction ids with
  | nil => rfl
  | cons id rest ih =>
    have h1 := (sent_length_makeRequest (envOf id) config body id)
    simp only [workerOutcomes, List.flatMap_cons, List.length_append, List.length_cons] at ih ⊢
    rw [h1]
    omega

theorem main_ran (env : RunEnv) (config : Config) (timerDone : Nat → Bool) (fuel : Nat)
    (bodyContent : String) (hURL : config.URL ≠ "")
    (hbody : readBody env config = .ok bodyContent)
    (hB : 0 ≤ config.BatchSize) (hcap : config.BatchSize ≤ env.chanCapLimit) :
    main env config timerDone fuel =
      MainResult.ran bodyContent (dispatch config timerDone fuel) := by
  unfold main
  rw [if_neg hURL, hbody]
  have hno : ¬ (config.BatchSize < 0 ∨ env.chanCapLimit < config.BatchSize) := by omega
  simp only [hno, if_false]

/-- C2 as stated fails where the run does not reach the loop.  With `Repeat` off,
`N = 10` and `B = 2 ^ 62` the hypotheses of the claim hold, the creation of
`resultChan` with capacity `B` panics (line 88) and no worker is launched; with an
empty URL the run returns at line 69 and no worker is launched. -/
theorem C2_counterexample_no_loop :
    (exampleConfig 10 (2 ^ 62) false 0).Repeat = false ∧
    (0 : Int) ≤ (exampleConfig 10 (2 ^ 62) false 0).TotalReqs ∧
    (1 : Int) ≤ (exampleConfig 10 (2 ^ 62) false 0).BatchSize ∧
    (∀ fuel, main exampleEnv (exampleConfig 10 (2 ^ 62) false 0) (fun _ => false) fuel =
      MainResult.chanPanic) ∧
    (∀ fuel, launchedIDs
      (main exampleEnv (exampleConfig 10 (2 ^ 62) false 0) (fun _ => false) fuel).events = []) ∧
    (∀ fuel, main exampleEnv { exampleConfig 10 3 false 0 with URL := "" } (fun _ => false) fuel =
      MainResult.urlRequired) := by
  have hpanic : ∀ fuel,
      main exampleEnv (exampleConfig 10 (2 ^ 62) false 0) (fun _ => false) fuel =
        MainResult.chanPanic := by
    intro fuel
    unfold main
    rw [if_neg (by decide)]
    have hb : readBody exampleEnv (exampleConfig 10 (2 ^ 62) false 0) = .ok "" := rfl
    rw [hb]
    have hyes : (exampleConfig 10 (2 ^ 62) false 0).BatchSize < 0 ∨
        exampleEnv.chanCapLimit < (exampleConfig 10 (2 ^ 62) false 0).BatchSize :=
      Or.inr (by decide)
    simp only [hyes, if_true]
  refine ⟨rfl, by decide, by decide, hpanic, ?_, ?_⟩
  · intro fuel
    rw [hpanic]
    rfl
  · intro fuel
    unfold main
    rw [if_pos rfl]

/-- C2 (one pass without repeat), for a run that reaches the loop: with a non-empty
URL, the body read and a batch size `B` that the runtime accepts as capacity of
`resultChan`, with `Repeat` off, for every `Duration`, every timer behaviour, every
`N ≥ 0` and `B ≥ 1`, the run reaches the loop and leaves it after one pass: the
events are the `ceil(N/B)` batches of one pass followed by the end of the pass, the
batch sizes sum to `N`, the launched request ids are `0 .. N-1` each once, each
worker sends exactly one outcome, and for every order in which the channel delivers
these outcomes the aggregator ends with `processedCount = N`. -/
theorem C2_single_pass_no_repeat (env : RunEnv) (config : Config) (timerDone : Nat → Bool)
    (envOf : Int → HttpEnv) (bodyContent : String)
    (hURL : config.URL ≠ "") (hbody : readBody env config = .ok bodyContent)
    (hcap : config.BatchSize ≤ env.chanCapLimit)
    (hR : config.Repeat = false) (hN : 0 ≤ config.TotalReqs) (hB : 1 ≤ config.BatchSize)
    (fuel : Nat) (hfuel : ceilDiv config.TotalReqs config.BatchSize + 1 ≤ fuel) :
    main env config timerDone fuel =
      MainResult.ran bodyContent (dispatch config timerDone fuel) ∧
    (dispatch config timerDone fuel).exit = some ExitReason.passesDone ∧
    (main env config timerDone fuel).events =
      passEvents config (ceilDiv config.TotalReqs config.BatchSize) ++ [Event.passEnd] ∧
    passCount (main env config timerDone fuel).events = 1 ∧
    (batchSizes (main env config timerDone fuel).events).sum = config.TotalReqs ∧
    launchedIDs (main env config timerDone fuel).events =
      (List.range config.TotalReqs.toNat).map (fun (j : Nat) => (j : Int)) ∧
    (∀ id : Int, (makeRequest (envOf id) config bodyContent id).sent.length = 1) ∧
    (∀ outs : List Result,
      outs.Perm (workerOutcomes envOf config bodyContent
        (launchedIDs (main env config timerDone fuel).events)) →
      (aggregate outs).processedCount = config.TotalReqs) := by
  have hmain := main_ran env config timerDone fuel bodyContent hURL hbody (by omega) hcap
  have hev : (main env config timerDone fuel).events = (dispatch config timerDone fuel).events := by
    rw [hmain]; rfl
  have hx : (!config.Repeat || config.Duration == 0) = true := by simp [hR]
  have hstate : dispatch config timerDone fuel = _ :=
    single_pass_state config (stopChanClosed config timerDone) hN hB
      (stopChanClosed_no_repeat config timerDone hR) hx fuel hfuel
  have hspec := ceilDiv_spec config.TotalReqs config.BatchSize hN hB
  have hsi := passEvents_sum_ids config hN hB (ceilDiv config.TotalReqs config.BatchSize)
    (le_refl _)
  rw [min_eq_right hspec.1] at hsi
  have hids : launchedIDs (dispatch config timerDone fuel).events =
      (List.range config.TotalReqs.toNat).map (fun (j : Nat) => (j : Int)) := by
    rw [hstate]
    show launchedIDs (passEvents config _ ++ [Event.passEnd]) = _
    rw [launchedIDs_append, hsi.2]
    simp [launchedIDs]
  rw [hev]
  refine ⟨hmain, ?_, ?_, ?_, ?_, hids, ?_, ?_⟩
  · rw [hstate]
  · rw [hstate]
  · rw [hstate]
    show passCount (passEvents config _ ++ [Event.passEnd]) = 1
    rw [passCount_append, passCount_passEvents]
    rfl
  · rw [hstate]
    show (batchSizes (passEvents config _ ++ [Event.passEnd])).sum = _
    rw [batchSizes_append, List.sum_append, hsi.1]
    simp [batchSizes]
  · intro id
    exact sent_length_makeRequest (envOf id) config bodyContent id
  · intro outs hperm
    rw [processedCount_aggregate, hperm.length_eq, length_workerOutcomes, hids]
    simp only [List.length_map, List.length_range]
    exact Int.toNat_of_nonneg hN

/-- Witness for C2: `N = 10`, `B = 3`, repeat off with a positive duration and a timer
that has already fired, against an endpoint that always answers 200: batches of
sizes 3, 3, 3, 1, count of status 200 equal to 10 and `processedCount = 10`. -/
theorem C2_single_pass_no_repeat_witness :
    main exampleEnv (exampleConfig 10 3 false 5) (fun _ => true) 5 =
      MainResult.ran "" (dispatch (exampleConfig 10 3 false 5) (fun _ => true) 5) ∧
    (dispatch (exampleConfig 10 3 false 5) (fun _ => true) 5).exit =
      some ExitReason.passesDone ∧
    batchSizes (main exampleEnv (exampleConfig 10 3 false 5) (fun _ => true) 5).events =
      [3, 3, 3, 1] ∧
    launchedIDs (main exampleEnv (exampleConfig 10 3 false 5) (fun _ => true) 5).events =
      [0, 1, 2, 3, 4, 5, 6, 7, 8, 9] ∧
    ((aggregate (workerOutcomes (fun _ => stub200) (exampleConfig 10 3 false 5) ""
        (launchedIDs
          (main exampleEnv (exampleConfig 10 3 false 5) (fun _ => true) 5).events))).results.get?
          200).map (fun r => r.Count) = some 10 ∧
    (aggregate (workerOutcomes (fun _ => stub200) (exampleConfig 10 3 false 5) ""
        (launchedIDs
          (main exampleEnv (exampleConfig 10 3 false 5) (fun _ => true) 5).events))).processedCount =
      (exampleConfig 10 3 false 5).TotalReqs := by
  have h := C2_single_pass_no_repeat exampleEnv (exampleConfig 10 3 false 5) (fun _ => true)
    (fun _ => stub200) "" (by decide) rfl (by decide) rfl (by decide) (by decide) 5 (by decide)
  exact ⟨h.1, h.2.1, by decide, by decide, by decide, h.2.2.2.2.2.2.2 _ (List.Perm.refl _)⟩

theorem stopChanClosed_neg_duration (config : Config) (timerDone : Nat → Bool)
    (hD : config.Duration < 0) (k : Nat) : stopChanClosed config timerDone k = false := by
  have : ¬ config.Duration > 0 := by omega
  simp [stopChanClosed, this]

theorem step_running_neg_duration (config : Config) (timerDone : Nat → Bool)
    (hR : config.Repeat = true) (hD : config.Duration < 0) (s : DState) (he : s.exit = none) :
    (batchLoopStep config (stopChanClosed config timerDone) s).exit = none := by
  by_cases hlt : s.i < config.TotalReqs
  · rw [step_batch _ _ _ he hlt (stopChanClosed_neg_duration config timerDone hD _)]
  · have hx : (!config.Repeat || config.Duration == 0) = false := by
      have : ¬ config.Duration = 0 := by omega
      simp [hR, this]
    rw [step_passEnd_again _ _ _ he (by omega) hx]
    exact he

/-- With `Repeat` set and a negative `Duration` the dispatch loop is never left. -/
theorem run_running_neg_duration (config : Config) (timerDone : Nat → Bool)
    (hR : config.Repeat = true) (hD : config.Duration < 0) (fuel : Nat) (s : DState)
    (he : s.exit = none) :
    (batchLoop config (stopChanClosed config timerDone) fuel s).exit = none := by
  induction fuel with
  | zero => exact he
  | succ n ih =>
    rw [run_succ_last]
    exact step_running_neg_duration config timerDone hR hD _ ih

/-- With `Repeat` set and `Duration = 0` the dispatcher runs one pass and stops, as
it does without `Repeat`. -/
theorem repeat_zero_duration_single_pass (config : Config) (timerDone : Nat → Bool)
    (hD : config.Duration = 0) (hN : 0 ≤ config.TotalReqs) (hB : 1 ≤ config.BatchSize)
    (fuel : Nat) (hfuel : ceilDiv config.TotalReqs config.BatchSize + 1 ≤ fuel) :
    dispatch config timerDone fuel =
      { i := (ceilDiv config.TotalReqs config.BatchSize : Int) * config.BatchSize,
        checks := ceilDiv config.TotalReqs config.BatchSize,
        events := passEvents config (ceilDiv config.TotalReqs config.BatchSize) ++
          [Event.passEnd],
        exit := some ExitReason.passesDone } :=
  single_pass_state config (stopChanClosed config timerDone) hN hB
    (fun k => by simp [stopChanClosed, hD]) (by simp [hD]) fuel hfuel

theorem two_passes_state (timerDone : Nat → Bool) (p : Nat) :
    dispatch (exampleConfig 1 1 true (-1)) timerDone (2 * p) =
      { i := 0, checks := p,
        events := (List.replicate p [Event.batch 0 1 [0], Event.passEnd]).flatten,
        exit := none } := by
  induction p with
  | zero => rfl
  | succ n ih =>
    have h2 : 2 * (n + 1) = 2 * n + 1 + 1 := by ring
    unfold dispatch at ih ⊢
    rw [h2, run_succ_last, run_succ_last, ih]
    have hc : ∀ k, stopChanClosed (exampleConfig 1 1 true (-1)) timerDone k = false :=
      stopChanClosed_neg_duration _ _ (by decide)
    have h1 := step_batch (exampleConfig 1 1 true (-1))
      (stopChanClosed (exampleConfig 1 1 true (-1)) timerDone)
      { i := 0, checks := n,
        events := (List.replicate n [Event.batch 0 1 [0], Event.passEnd]).flatten,
        exit := none } rfl (by show (0 : Int) < 1; omega) (hc _)
    rw [h1]
    have h3 := step_passEnd_again (exampleConfig 1 1 true (-1))
      (stopChanClosed (exampleConfig 1 1 true (-1)) timerDone)
      { i := 0 + 1, checks := n + 1,
        events := (List.replicate n [Event.batch 0 1 [0], Event.passEnd]).flatten ++
          [batchEvent (exampleConfig 1 1 true (-1)) 0],
        exit := none } rfl (by show (1 : Int) ≤ 0 + 1; omega) (by decide)
    have hexp : (exampleConfig 1 1 true (-1)).BatchSize = 1 := rfl
    rw [hexp] at h1
    rw [hexp, h3]
    have hb : batchEvent (exampleConfig 1 1 true (-1)) 0 = Event.batch 0 1 [0] := by decide
    simp [List.replicate_succ', hb]

/-- C6, the code at the failing input: with `Repeat` set, `Duration = -1`, `N = 1` and
`B = 1` the dispatch loop is still running after any number of steps, whatever the
timer does, and after `2 * p` steps it has completed `p` passes. -/
theorem C6_negative_duration_never_stops (timerDone : Nat → Bool) (fuel : Nat) :
    (dispatch (exampleConfig 1 1 true (-1)) timerDone fuel).exit = none ∧
    passCount (dispatch (exampleConfig 1 1 true (-1)) timerDone (2 * fuel)).events = fuel := by
  constructor
  · exact run_running_neg_duration _ timerDone rfl (by decide) fuel DState.init rfl
  · rw [two_passes_state]
    show passCount (List.replicate fuel [Event.batch 0 1 [0], Event.passEnd]).flatten = fuel
    induction fuel with
    | zero => rfl
    | succ n ih =>
      rw [List.replicate_succ, List.flatten_cons, passCount_append, ih]
      simp [passCount]
      omega

theorem stopChanClosed_repeat (config : Config) (timerDone : Nat → Bool)
    (hR : config.Repeat = true) (hD : 0 < config.Duration) (k : Nat) :
    stopChanClosed config timerDone k = timerDone k := by
  simp [stopChanClosed, hR, hD]

theorem exit_test_repeat (config : Config) (hR : config.Repeat = true)
    (hD : 0 < config.Duration) : (!config.Repeat || config.Duration == 0) = false := by
  have : ¬ config.Duration = 0 := by omega
  simp [hR, this]

/-- Once the stop channel is closed for good, at most two steps are taken, the loop is
left through the stop signal and no batch is added. -/
theorem run_after_stop (config : Config) (closed : Nat → Bool)
    (hN : 1 ≤ config.TotalReqs)
    (hx : (!config.Repeat || config.Duration == 0) = false)
    (s : DState) (he : s.exit = none)
    (hfired : ∀ k, s.checks ≤ k → closed k = true) (fuel : Nat) :
    batchSizes (batchLoop config closed fuel s).events = batchSizes s.events ∧
    launchedIDs (batchLoop config closed fuel s).events = launchedIDs s.events ∧
    (2 ≤ fuel → (batchLoop config closed fuel s).exit = some ExitReason.stopSignal) := by
  by_cases hlt : s.i < config.TotalReqs
  · have h1 := step_stop config closed s he hlt (hfired _ (le_refl _))
    cases fuel with
    | zero => exact ⟨rfl, rfl, fun h => absurd h (by omega)⟩
    | succ n =>
      have hr : batchLoop config closed (n + 1) s = batchLoopStep config closed s := by
        show batchLoop config closed n (batchLoopStep config closed s) = _
        rw [h1]
        exact run_exited _ _ _ _ _ rfl
      rw [hr, h1]
      exact ⟨rfl, rfl, fun _ => rfl⟩
  · have h1 := step_passEnd_again config closed s he (by omega) hx
    have h2 := step_stop config closed { s with i := 0, events := s.events ++ [Event.passEnd] }
      he (by show (0 : Int) < config.TotalReqs; omega) (hfired _ (le_refl _))
    cases fuel with
    | zero => exact ⟨rfl, rfl, fun h => absurd h (by omega)⟩
    | succ n =>
      cases n with
      | zero =>
        have hr : batchLoop config closed 1 s = batchLoopStep config closed s := rfl
        rw [hr, h1]
        refine ⟨?_, ?_, fun h => absurd h (by omega)⟩
        · show batchSizes (s.events ++ [Event.passEnd]) = _
          rw [batchSizes_append]; simp [batchSizes]
        · show launchedIDs (s.events ++ [Event.passEnd]) = _
          rw [launchedIDs_append]; simp [launchedIDs]
      | succ m =>
        have hr : batchLoop config closed (m + 1 + 1) s =
            batchLoopStep config closed (batchLoopStep config closed s) := by
          show batchLoop config closed m (batchLoopStep config closed (batchLoopStep config closed s)) = _
          rw [h1, h2]
          exact run_exited _ _ _ _ _ rfl
        rw [hr, h1, h2]
        refine ⟨?_, ?_, fun _ => rfl⟩
        · show batchSizes (s.events ++ [Event.passEnd]) = _
          rw [batchSizes_append]; simp [batchSizes]
        · show launchedIDs (s.events ++ [Event.passEnd]) = _
          rw [launchedIDs_append]; simp [launchedIDs]

/-- C7, the code at the failing input: with `Repeat` set, `Duration = 5`, `N = 0` and
`B = 1` the run reaches the loop, and with the stop channel closed from the start
the inner loop body never runs, the channel is never read, no batch is started and
after any number of steps the loop has only ended empty passes and is still
running. -/
theorem C7_empty_budget_never_exits :
    (∀ k, stopChanClosed (exampleConfig 0 1 true 5) (fun _ => true) k = true) ∧
    (∀ fuel, main exampleEnv (exampleConfig 0 1 true 5) (fun _ => true) fuel =
      MainResult.ran "" (dispatch (exampleConfig 0 1 true 5) (fun _ => true) fuel)) ∧
    (∀ fuel, dispatch (exampleConfig 0 1 true 5) (fun _ => true) fuel =
      { i := 0, checks := 0, events := List.replicate fuel Event.passEnd, exit := none }) ∧
    (∀ fuel, (dispatch (exampleConfig 0 1 true 5) (fun _ => true) fuel).exit = none ∧
      (dispatch (exampleConfig 0 1 true 5) (fun _ => true) fuel).checks = 0) := by
  have hstate : ∀ fuel, dispatch (exampleConfig 0 1 true 5) (fun _ => true) fuel =
      { i := 0, checks := 0, events := List.replicate fuel Event.passEnd, exit := none } := by
    intro fuel
    unfold dispatch
    induction fuel with
    | zero => rfl
    | succ n ih =>
      rw [run_succ_last, ih]
      have h := step_passEnd_again (exampleConfig 0 1 true 5)
        (stopChanClosed (exampleConfig 0 1 true 5) (fun _ => true))
        { i := 0, checks := 0, events := List.replicate n Event.passEnd, exit := none }
        rfl (by show (0 : Int) ≤ 0; omega) (by decide)
      rw [h]
      simp [List.replicate_succ']
  refine ⟨fun k => rfl, fun fuel => ?_, hstate, fun fuel => ?_⟩
  · exact main_ran exampleEnv _ _ fuel "" (by decide) rfl (by decide) (by decide)
  · rw [hstate]
    exact ⟨rfl, rfl⟩

/-- The sibling paths of the stop check: in repeat mode with a positive duration, from
any running state at the head of the inner loop:
a closed stop channel seen before a batch leaves the loop without starting the batch;
an open one starts the batch of size `min B (N - i)` with all its request ids; the
step reads the channel only at that check, so it is the same for any other timer that
agrees there, and the end of a pass does not read it and restarts at offset `0`, where
an open channel starts the batch at offset `0` when the budget is `N ≥ 1`; and for a
budget `N ≥ 1`, once the channel is closed for good no batch is ever added and the
loop is left within two steps. -/
theorem stop_checked_before_each_batch (config : Config) (timerDone : Nat → Bool)
    (hR : config.Repeat = true) (hD : 0 < config.Duration)
    (s : DState) (he : s.exit = none) :
    (s.i < config.TotalReqs → timerDone s.checks = true →
      batchLoopStep config (stopChanClosed config timerDone) s =
        { s with checks := s.checks + 1, exit := some ExitReason.stopSignal }) ∧
    (s.i < config.TotalReqs → timerDone s.checks = false →
      batchLoopStep config (stopChanClosed config timerDone) s =
        { i := s.i + config.BatchSize, checks := s.checks + 1,
          events := s.events ++
            [Event.batch s.i (min config.BatchSize (config.TotalReqs - s.i))
              ((List.range (min config.BatchSize (config.TotalReqs - s.i)).toNat).map
                (fun (j : Nat) => s.i + (j : Int)))],
          exit := none }) ∧
    (∀ timer2 : Nat → Bool, timer2 s.checks = timerDone s.checks →
      batchLoopStep config (stopChanClosed config timer2) s =
        batchLoopStep config (stopChanClosed config timerDone) s) ∧
    (config.TotalReqs ≤ s.i → ∀ timer2 : Nat → Bool,
      batchLoopStep config (stopChanClosed config timer2) s =
        { s with i := 0, events := s.events ++ [Event.passEnd] }) ∧
    (1 ≤ config.TotalReqs → config.TotalReqs ≤ s.i → timerDone s.checks = false →
      batchLoop config (stopChanClosed config timerDone) 2 s =
        { i := 0 + config.BatchSize, checks := s.checks + 1,
          events := s.events ++ [Event.passEnd] ++ [batchEvent config 0],
          exit := none }) ∧
    (1 ≤ config.TotalReqs → (∀ k, s.checks ≤ k → timerDone k = true) → ∀ fuel : Nat,
      batchSizes (batchLoop config (stopChanClosed config timerDone) fuel s).events =
        batchSizes s.events ∧
      launchedIDs (batchLoop config (stopChanClosed config timerDone) fuel s).events =
        launchedIDs s.events ∧
      (2 ≤ fuel →
        (batchLoop config (stopChanClosed config timerDone) fuel s).exit =
          some ExitReason.stopSignal)) := by
  have hx := exit_test_repeat config hR hD
  have hcl := stopChanClosed_repeat config timerDone hR hD
  refine ⟨?_, ?_, ?_, ?_, ?_, ?_⟩
  · intro hlt hf
    exact step_stop _ _ _ he hlt (by rw [hcl]; exact hf)
  · intro hlt hf
    rw [step_batch _ _ _ he hlt (by rw [hcl]; exact hf)]
    simp [batchEvent, batchSizeAt_eq_min, launch]
  · intro timer2 hagree
    have hcl2 := stopChanClosed_repeat config timer2 hR hD
    by_cases hlt : s.i < config.TotalReqs
    · cases hf : timerDone s.checks with
      | true =>
        rw [step_stop config (stopChanClosed config timerDone) s he hlt (by rw [hcl]; exact hf),
          step_stop config (stopChanClosed config timer2) s he hlt
            (by rw [hcl2, hagree]; exact hf)]
      | false =>
        rw [step_batch config (stopChanClosed config timerDone) s he hlt
            (by rw [hcl]; exact hf),
          step_batch config (stopChanClosed config timer2) s he hlt
            (by rw [hcl2, hagree]; exact hf)]
    · rw [step_passEnd_again _ _ _ he (by omega) hx,
        step_passEnd_again _ _ _ he (by omega) hx]
  · intro hge timer2
    exact step_passEnd_again _ _ _ he hge hx
  · intro hN hge hf
    show batchLoopStep config _ (batchLoopStep config _ s) = _
    rw [step_passEnd_again config (stopChanClosed config timerDone) s he hge hx]
    rw [step_batch config (stopChanClosed config timerDone)
      { s with i := 0, events := s.events ++ [Event.passEnd] } he
      (by show (0 : Int) < config.TotalReqs; omega) (by rw [hcl]; exact hf)]
  · intro hN hfired fuel
    exact run_after_stop config _ hN hx s he
      (fun k hk => by rw [hcl]; exact hfired k hk) fuel

/-- Example: budget 10, batch size 3, duration 2 and a timer that has fired
after six checks: the loop is left through the stop signal with six batches started
(one pass of four batches and two batches of the next pass). -/
theorem stop_after_six_checks_example :
    (batchLoop (exampleConfig 10 3 true 2)
        (stopChanClosed (exampleConfig 10 3 true 2) (fun k => decide (6 ≤ k))) 2
        (dispatch (exampleConfig 10 3 true 2) (fun k => decide (6 ≤ k)) 7)).exit =
      some ExitReason.stopSignal ∧
    batchSizes (dispatch (exampleConfig 10 3 true 2) (fun k => decide (6 ≤ k)) 9).events =
      [3, 3, 3, 1, 3, 3] ∧
    (dispatch (exampleConfig 10 3 true 2) (fun k => decide (6 ≤ k)) 9).exit =
      some ExitReason.stopSignal := by
  have hchk : (dispatch (exampleConfig 10 3 true 2) (fun k => decide (6 ≤ k)) 7).checks = 6 := by
    decide
  have h := stop_checked_before_each_batch (exampleConfig 10 3 true 2)
    (fun k => decide (6 ≤ k)) rfl (by decide)
    (dispatch (exampleConfig 10 3 true 2) (fun k => decide (6 ≤ k)) 7) (by decide)
  refine ⟨(h.2.2.2.2.2 (by decide) (fun k hk => ?_) 2).2.2 (le_refl _), by decide, by decide⟩
  rw [hchk] at hk
  exact decide_eq_true hk

/-- Range of the values the batch loop computes in a pass, for `N ≥ 0` and `B ≥ 1`:
at the head of each iteration the offset `i` is in `[0, N)`, and `i + B`, the batch
size and the largest request id `i + size - 1` stay in `[0, N + B - 1]`. -/
theorem offsets_bounded (config : Config) (closed : Nat → Bool)
    (hN : 0 ≤ config.TotalReqs) (hB : 1 ≤ config.BatchSize)
    (hc : ∀ k : Nat, closed k = false) (m : Nat)
    (hm : m < ceilDiv config.TotalReqs config.BatchSize) :
    0 ≤ (batchLoop config closed m DState.init).i ∧
    (batchLoop config closed m DState.init).i < config.TotalReqs ∧
    (batchLoop config closed m DState.init).i + config.BatchSize ≤
      config.TotalReqs + config.BatchSize - 1 ∧
    1 ≤ batchSizeAt config (batchLoop config closed m DState.init).i ∧
    (batchLoop config closed m DState.init).i +
      batchSizeAt config (batchLoop config closed m DState.init).i ≤ config.TotalReqs := by
  rw [run_pass_upto config closed hN hB (fun k _ => hc k) m (by omega)]
  have hlt := offset_lt_of_lt_ceilDiv _ _ hN hB m hm
  have h0 : 0 ≤ (m : Int) * config.BatchSize := mul_nonneg (by omega) (by omega)
  simp only [batchSizeAt_eq_min]
  refine ⟨h0, hlt, by omega, ?_, ?_⟩
  · exact le_min (by omega) (by omega)
  · have := min_le_right config.BatchSize (config.TotalReqs - (m : Int) * config.BatchSize)
    omega

end Tapir
